import Mathlib

/-!
Shallow embedding of `multikeylock-rs` (`src/multikeylock.rs`): a keyed
mutual-exclusion manager backed by a concurrent map from string keys to
`u64` holder tokens, with an RAII guard (`KeyLock`) that releases by
remove-if-match, and an acquisition loop with capped exponential backoff.

Modelling conventions:
* the `DashMap<String, u64>` registry is an association list
  `List (String × Nat)`; the no-duplicate-keys property that a map gives
  structurally is carried as an explicit `Nodup` hypothesis/invariant;
* `u64` tokens are `Nat`; the global `AtomicU64` counter wraps modulo
  `2 ^ 64` on `fetch_add` exactly as the machine integer does;
* `Duration` values are `Nat` nanoseconds
  (5 s = 5000000000, 10 ms = 10000000, 1 s = 1000000000);
* the asynchronous acquisition loop of `lock_with_token` is a
  fuel-indexed simulation: the registry contents observed at round `n`
  are an environment function `regAt n`, and `cancelled n` says whether
  the cancellation branch of the `select!` wins round `n`'s race.
-/

namespace Multikeylock

/-- `const DEFAULT_TIMEOUT: Duration = Duration::from_secs(5)`, in ns. -/
def DEFAULT_TIMEOUT : Nat := 5000000000

/-- `const DEFAULT_RETRY: Duration = Duration::from_millis(10)`, in ns. -/
def DEFAULT_RETRY : Nat := 10000000

/-- `const MAX_BACKOFF: Duration = Duration::from_secs(1)`, in ns. -/
def MAX_BACKOFF : Nat := 1000000000

/-- Modulus of the `u64` global token counter: `2 ^ 64`, written as a
numeral. -/
def U64SIZE : Nat := 18446744073709551616

/-- The registry: `DashMap<String, u64>` as an association list. -/
abbrev Registry := List (String × Nat)

/-- Current value stored under `k`, i.e. `map.get(&k)`. -/
def lookup (r : Registry) (k : String) : Option Nat :=
  (r.find? (fun p => p.1 == k)).map (fun p => p.2)

/-- `self.locks.entry(key).or_insert(token)`: returns the updated map and
the loaded value (the pre-existing one, or `t` if freshly inserted). -/
def orInsert (r : Registry) (k : String) (t : Nat) : Registry × Nat :=
  match lookup r k with
  | some v => (r, v)
  | none => ((k, t) :: r, t)

/-- `map.remove_if(&key, |_, v| *v == token)`: drop the entry for `k`
only when its stored value is `t`. -/
def removeIfMatch (r : Registry) (k : String) (t : Nat) : Registry :=
  r.filter (fun p => !(p.1 == k && p.2 == t))

/-- The guard `KeyLock { map, key, token_id }` (the shared map reference
is implicit: operations take the registry explicitly). -/
structure KeyLock where
  key : String
  token_id : Nat
  deriving Repr, DecidableEq

/-- `impl Drop for KeyLock`: remove-if-match against the guard's own
key and token. -/
def KeyLock.drop (r : Registry) (g : KeyLock) : Registry :=
  removeIfMatch r g.key g.token_id

/-! ### Registry lemmas -/

theorem lookup_nil (k : String) : lookup [] k = none := rfl

theorem lookup_cons (q : String × Nat) (r : Registry) (k : String) :
    lookup (q :: r) k = if q.1 = k then some q.2 else lookup r k := by
  by_cases h : q.1 = k <;> simp [lookup, List.find?_cons, h]

theorem lookup_eq_none (r : Registry) (k : String) :
    lookup r k = none ↔ ∀ p ∈ r, p.1 ≠ k := by
  simp [lookup, List.find?_eq_none]

theorem mem_of_lookup (r : Registry) (k : String) (v : Nat)
    (h : lookup r k = some v) : (k, v) ∈ r := by
  induction r with
  | nil => simp [lookup] at h
  | cons q r ih =>
    rw [lookup_cons] at h
    by_cases hq : q.1 = k
    · simp only [hq, if_pos] at h
      obtain ⟨a, b⟩ := q
      injection h with hv
      subst hq hv
      exact List.mem_cons_self _ _
    · simp only [hq, if_neg, if_false] at h
      exact List.mem_cons_of_mem _ (ih h)

theorem lookup_of_mem_nodup (r : Registry) (k : String) (v : Nat)
    (hnd : (r.map Prod.fst).Nodup) (h : (k, v) ∈ r) : lookup r k = some v := by
  induction r with
  | nil => simp at h
  | cons q r ih =>
    simp only [List.map_cons, List.nodup_cons] at hnd
    rcases List.mem_cons.mp h with heq | hmem
    · rw [← heq, lookup_cons]
      simp
    · have hk : k ∈ r.map Prod.fst := List.mem_map_of_mem Prod.fst hmem
      have hq : q.1 ≠ k := fun hc => hnd.1 (hc ▸ hk)
      rw [lookup_cons, if_neg hq]
      exact ih hnd.2 hmem

theorem value_unique (r : Registry) (k : String) (v : Nat)
    (hnd : (r.map Prod.fst).Nodup) (h : lookup r k = some v) :
    ∀ p ∈ r, p.1 = k → p.2 = v := by
  intro p hp hpk
  have : lookup r k = some p.2 := by
    apply lookup_of_mem_nodup r k p.2 hnd
    have : p = (k, p.2) := by
      obtain ⟨a, b⟩ := p
      simp_all
    exact this ▸ hp
  rw [h] at this
  exact (Option.some.injEq _ _ ▸ this).symm

theorem mem_removeIfMatch (r : Registry) (k : String) (t : Nat)
    (p : String × Nat) :
    p ∈ removeIfMatch r k t ↔ p ∈ r ∧ ¬(p.1 = k ∧ p.2 = t) := by
  simp [removeIfMatch, List.mem_filter, not_and]
  tauto

theorem removeIfMatch_eq_self (r : Registry) (k : String) (t : Nat)
    (h : ∀ p ∈ r, ¬(p.1 = k ∧ p.2 = t)) : removeIfMatch r k t = r := by
  apply List.filter_eq_self.mpr
  intro p hp
  have := h p hp
  simp only [Bool.not_eq_true', Bool.and_eq_true, beq_iff_eq]
  by_cases h1 : p.1 = k <;> by_cases h2 : p.2 = t <;> simp_all

theorem lookup_removeIfMatch_ne (r : Registry) (k : String) (t : Nat)
    (k' : String) (hne : k' ≠ k) :
    lookup (removeIfMatch r k t) k' = lookup r k' := by
  induction r with
  | nil => rfl
  | cons q r ih =>
    by_cases hq : q.1 = k ∧ q.2 = t
    · have : removeIfMatch (q :: r) k t = removeIfMatch r k t := by
        simp [removeIfMatch, List.filter_cons, hq.1, hq.2]
      rw [this, ih, lookup_cons, if_neg]
      intro hc
      exact hne (by rw [← hc, hq.1])
    · have : removeIfMatch (q :: r) k t = q :: removeIfMatch r k t := by
        simp only [removeIfMatch, List.filter_cons]
        have : (q.1 == k && q.2 == t) = false := by
          by_cases h1 : q.1 = k <;> by_cases h2 : q.2 = t <;> simp_all
        simp [this]
      rw [this, lookup_cons, lookup_cons, ih]

/-! ### Claims C2 and C10: release correctness and its frame property -/

/-- C2. Release correctness: dropping a guard removes the registry entry
for the guard's key iff the stored value equals the guard's own token;
a reassigned entry (different token) is left entirely unchanged, and an
absent entry makes the drop a no-op. Mirrors
`self.map.remove_if(&self.key, |_, v| *v == self.token_id)`. -/
theorem drop_release_correct (r : Registry) (g : KeyLock)
    (hnd : (r.map Prod.fst).Nodup) :
    (lookup r g.key = some g.token_id →
      lookup (KeyLock.drop r g) g.key = none) ∧
    (∀ t, lookup r g.key = some t → t ≠ g.token_id →
      KeyLock.drop r g = r) ∧
    (lookup r g.key = none → KeyLock.drop r g = r) := by
  refine ⟨?_, ?_, ?_⟩
  · intro h
    rw [lookup_eq_none]
    intro p hp
    rw [KeyLock.drop, mem_removeIfMatch] at hp
    intro hpk
    exact hp.2 ⟨hpk, value_unique r g.key g.token_id hnd h p hp.1 hpk⟩
  · intro t h hne
    apply removeIfMatch_eq_self
    intro p hp hc
    have := value_unique r g.key t hnd h p hp hc.1
    exact hne (by rw [← this, hc.2])
  · intro h
    apply removeIfMatch_eq_self
    intro p hp hc
    exact (lookup_eq_none r g.key).mp h p hp hc.1

/-- Witness for C2 at a concrete registry and guard. -/
theorem drop_release_correct_witness :
    lookup [("a", 7), ("b", 3)] "a" = some 7 ∧
    lookup (KeyLock.drop [("a", 7), ("b", 3)] ⟨"a", 7⟩) "a" = none := by
  refine ⟨by decide, ?_⟩
  exact (drop_release_correct [("a", 7), ("b", 3)] ⟨"a", 7⟩ (by decide)).1
    (by decide)

/-- C10. Frame property of guard drop: the drop touches at most the
guard's own key; every other key's entry (presence and value) is
unchanged. -/
theorem drop_frame (r : Registry) (g : KeyLock) (k' : String)
    (hne : k' ≠ g.key) :
    lookup (KeyLock.drop r g) k' = lookup r k' :=
  lookup_removeIfMatch_ne r g.key g.token_id k' hne

/-- Witness for C10 at a concrete registry, guard and other key. -/
theorem drop_frame_witness :
    lookup (KeyLock.drop [("a", 7), ("b", 3)] ⟨"a", 7⟩) "b" =
      lookup [("a", 7), ("b", 3)] "b" :=
  drop_frame [("a", 7), ("b", 3)] ⟨"a", 7⟩ "b" (by decide)

/-! ### Manager construction -/

/-- `pub struct Config { map, timeout, retry }` — these three fields are
the only construction parameters; there is no backoff-cap field. -/
structure Config where
  map : Registry
  timeout : Option Nat
  retry : Option Nat

/-- `impl Default for Config`. -/
def Config.default : Config :=
  { map := [], timeout := some DEFAULT_TIMEOUT, retry := some DEFAULT_RETRY }

/-- `pub struct MultiKeyLock { locks, timeout, retry }`. -/
structure MultiKeyLock where
  locks : Registry
  timeout : Nat
  retry : Nat

/-- `MultiKeyLock::with_config`: `unwrap_or_else(|| DEFAULT_*)` on the
optional fields. -/
def withConfig (c : Config) : MultiKeyLock :=
  { locks := c.map
    timeout := c.timeout.getD DEFAULT_TIMEOUT
    retry := c.retry.getD DEFAULT_RETRY }

/-- `MultiKeyLock::new`. -/
def MultiKeyLock.new : MultiKeyLock := withConfig Config.default

/-! ### Token minting and the acquisition operations -/

/-- `GLOBAL_COUNTER.fetch_add(1, SeqCst)`: returns the old counter value
(the minted token) and the new counter, wrapping modulo `2 ^ 64`. -/
def mintToken (c : Nat) : Nat × Nat := (c, (c + 1) % U64SIZE)

/-- Counter value after `n` acquisition calls starting from counter `c`
(each call performs exactly one `fetch_add`). -/
def counterAfter (c : Nat) : Nat → Nat
  | 0 => c
  | n + 1 => (counterAfter c n + 1) % U64SIZE

/-- Token minted by the `i`-th acquisition call (0-indexed) when the
counter starts at `c`: `fetch_add` returns the pre-increment value. -/
def tokenOfCall (c i : Nat) : Nat := counterAfter c i

/-- `MultiKeyLock::try_lock_now` acting on an explicit registry and
counter: mint one token, perform one `or_insert`, compare the loaded
value with the minted token. Returns (guard?, registry, counter);
there is no suspension point. -/
def tryLockNow (r : Registry) (c : Nat) (k : String) :
    Option KeyLock × Registry × Nat :=
  let t := (mintToken c).1
  let res := orInsert r k t
  if res.2 = t then (some ⟨k, t⟩, res.1, (mintToken c).2)
  else (none, res.1, (mintToken c).2)

/-- The loop body of `MultiKeyLock::lock_with_token`, round-indexed.
`regAt n` is the registry contents this call observes at round `n`
(other tasks may mutate the shared map between rounds); `cancelled n`
says whether the `cancel.cancelled()` branch of the `select!` wins round
`n`'s race against `sleep(retry)`. Fuel bounds the number of simulated
rounds; `none` means the loop was still running when fuel ran out.
On termination it returns the guard-or-absent outcome together with the
registry as left by this call's final round. -/
def lockLoop (regAt : Nat → Registry) (cancelled : Nat → Bool)
    (k : String) (t : Nat) : Nat → Nat → Option (Option KeyLock × Registry)
  | 0, _ => none
  | fuel + 1, n =>
    let res := orInsert (regAt n) k t
    if res.2 = t then some (some ⟨k, t⟩, res.1)
    else if cancelled n then some (none, res.1)
    else lockLoop regAt cancelled k t fuel (n + 1)

/-- `MultiKeyLock::lock_with_token`: mint one token before the loop, then
run the loop with that same token in every round. Returns the loop
outcome and the post-call counter. -/
def lockWithToken (m : MultiKeyLock) (regAt : Nat → Registry)
    (cancelled : Nat → Bool) (k : String) (c : Nat) (fuel : Nat) :
    Option (Option KeyLock × Registry) × Nat :=
  (lockLoop regAt cancelled k (mintToken c).1 fuel 0, (mintToken c).2)

/-! ### Backoff timing -/

/-- Value of the `retry` variable at round `n` of the loop: it starts at
the configured base `B` and each failed round sets
`retry = min(retry * 2, M)`. -/
def retryAt (B M : Nat) : Nat → Nat
  | 0 => B
  | n + 1 => min (retryAt B M n * 2) M

/-- Absolute time of the loop's round-`n` insert attempt: the first
attempt is immediate, and attempt `n + 1` happens after sleeping the
round-`n` retry delay. -/
def boundary (B M : Nat) : Nat → Nat
  | 0 => 0
  | n + 1 => boundary B M n + retryAt B M n

/-- The timeout-driven cancellation of `lock_with_timeout`: the spawned
timer fires `cancel` at absolute time `timeout`, so the cancellation
branch wins round `n`'s race iff the timer fires no later than the end
of round `n`'s sleep. -/
def timeoutCancelled (m : MultiKeyLock) (timeout : Nat) : Nat → Bool :=
  fun n => decide (timeout ≤ boundary m.retry MAX_BACKOFF (n + 1))

/-- `MultiKeyLock::lock_with_timeout`: fresh cancellation signal fired by
a background timer after `timeout`, then delegate to `lock_with_token`. -/
def lockWithTimeout (m : MultiKeyLock) (regAt : Nat → Registry)
    (k : String) (timeout : Nat) (c : Nat) (fuel : Nat) :
    Option (Option KeyLock × Registry) × Nat :=
  lockWithToken m regAt (timeoutCancelled m timeout) k c fuel

/-- `MultiKeyLock::lock`: `self.lock_with_timeout(key, self.timeout)`. -/
def lock (m : MultiKeyLock) (regAt : Nat → Registry) (k : String)
    (c : Nat) (fuel : Nat) : Option (Option KeyLock × Registry) × Nat :=
  lockWithTimeout m regAt k m.timeout c fuel

/-- Acquisition-time simulation of the loop for a waiter whose contended
key becomes free at absolute time `R` (an attempt at time `T` succeeds
iff `R ≤ T`): state is (current time, current retry delay). -/
def acquireTimeAux (M R : Nat) : Nat → Nat → Nat → Option Nat
  | 0, _, _ => none
  | fuel + 1, time, retry =>
    if R ≤ time then some time
    else acquireTimeAux M R fuel (time + retry) (min (retry * 2) M)

/-- Time at which a waiter with retry base `B`, cap `M`, starting at
time 0 against a key freed at time `R`, acquires the key. -/
def acquireTime (B M R fuel : Nat) : Option Nat :=
  acquireTimeAux M R fuel 0 B

/-! ### Claim C4: immediate mode -/

theorem tryLockNow_counter (r : Registry) (c : Nat) (k : String) :
    (tryLockNow r c k).2.2 = (c + 1) % U64SIZE := by
  rw [tryLockNow]
  split <;> rfl

/-- Counterexample to C4 as stated: `try_lock_now`'s success test is
only `*loaded == token_id`, so when the freshly minted token collides
with the value already stored under the key — a real code path once the
`u64` counter has wrapped (see `token_wrap_cex`) — the call returns a
guard although an entry existed, refuting "returns a guard if and only
if no entry existed". Here the registry already holds `("a", 5)` and
the call mints token 5. -/
theorem try_lock_now_collision_cex :
    (tryLockNow [("a", 5)] 5 "a").1 = some ⟨"a", 5⟩ ∧
    lookup [("a", 5)] "a" ≠ none := by
  constructor
  · decide
  · decide

/-- C4 as amended: `try_lock_now` performs exactly one `or_insert` (the
embedding is a single `orInsert`, with no suspension modelled because
the source has none). Provided the minted token is not already stored
under `k` (token freshness — guaranteed while fewer than `2 ^ 64` mints
separate it from the stored one, claim C5; without it, see
`try_lock_now_collision_cex`): it succeeds iff no entry existed; on
success the entry holds the freshly minted token; on failure the
registry is left unchanged. -/
theorem try_lock_now_spec (r : Registry) (c : Nat) (k : String)
    (hfresh : lookup r k ≠ some c) :
    ((tryLockNow r c k).1.isSome ↔ lookup r k = none) ∧
    (lookup r k = none →
      (tryLockNow r c k).1 = some ⟨k, c⟩ ∧
      lookup (tryLockNow r c k).2.1 k = some c) ∧
    (∀ v, lookup r k = some v →
      (tryLockNow r c k).1 = none ∧ (tryLockNow r c k).2.1 = r) ∧
    (tryLockNow r c k).2.2 = (c + 1) % U64SIZE := by
  refine ⟨?_, ?_, ?_, tryLockNow_counter r c k⟩
  · cases hl : lookup r k with
    | none => simp [tryLockNow, mintToken, orInsert, hl]
    | some v =>
      have hv : v ≠ c := fun h => hfresh (h ▸ hl)
      simp [tryLockNow, mintToken, orInsert, hl, hv]
  · intro hl
    constructor
    · simp [tryLockNow, mintToken, orInsert, hl]
    · simp [tryLockNow, mintToken, orInsert, hl, lookup_cons]
  · intro v hl
    have hv : v ≠ c := fun h => hfresh (h ▸ hl)
    constructor <;> simp [tryLockNow, mintToken, orInsert, hl, hv]

/-- Witness for C4 on an empty registry and on an occupied one. -/
theorem try_lock_now_spec_witness :
    (tryLockNow [] 0 "a").1 = some ⟨"a", 0⟩ ∧
    lookup (tryLockNow [] 0 "a").2.1 "a" = some 0 :=
  (try_lock_now_spec [] 0 "a" (by decide)).2.1 (by decide)

/-! ### Claim C8: lock delegates to lock_with_timeout -/

/-- C8. `lock(key)` is exactly `lock_with_timeout(key, self.timeout)`:
same guard-or-absent outcome, same registry effect, same counter
effect, from every state. -/
theorem lock_delegates_default_timeout (m : MultiKeyLock)
    (regAt : Nat → Registry) (k : String) (c fuel : Nat) :
    lock m regAt k c fuel = lockWithTimeout m regAt k m.timeout c fuel :=
  rfl

/-! ### Claim C9: attempt precedes cancellation check -/

/-- C9. The loop body attempts `or_insert` before racing the
cancellation signal, so a round that observes the key absent returns a
guard no matter what `cancelled` is — in particular for an
already-fired signal (`cancelled` constantly true). Stated both for the
call as a whole (round 0, via `lock_with_token`) and for an arbitrary
round `j` the loop reaches. -/
theorem cancelled_does_not_block_free_key (m : MultiKeyLock)
    (regAt : Nat → Registry) (cancelled : Nat → Bool) (k : String)
    (c t fuel j : Nat) (hfree0 : lookup (regAt 0) k = none)
    (hfreej : lookup (regAt j) k = none) :
    (lockWithToken m regAt cancelled k c (fuel + 1)).1 =
      some (some ⟨k, c⟩, (k, c) :: regAt 0) ∧
    lockLoop regAt cancelled k t (fuel + 1) j =
      some (some ⟨k, t⟩, (k, t) :: regAt j) := by
  constructor
  · simp [lockWithToken, mintToken, lockLoop, orInsert, hfree0]
  · simp [lockLoop, orInsert, hfreej]

/-- Witness for C9: an empty registry and an already-fired signal. -/
theorem cancelled_does_not_block_free_key_witness :
    (lockWithToken MultiKeyLock.new (fun _ => []) (fun _ => true) "a" 5
        1).1 = some (some ⟨"a", 5⟩, [("a", 5)]) :=
  (cancelled_does_not_block_free_key MultiKeyLock.new (fun _ => [])
    (fun _ => true) "a" 5 5 0 2 (by decide) (by decide)).1

/-! ### Claim C6: failure is an absent result with no stale entry -/

theorem lockLoop_none (regAt : Nat → Registry) (cancelled : Nat → Bool)
    (k : String) (t : Nat) :
    ∀ fuel j rf, lockLoop regAt cancelled k t fuel j = some (none, rf) →
      ∃ n v, rf = regAt n ∧ lookup rf k = some v ∧ v ≠ t := by
  intro fuel
  induction fuel with
  | zero =>
    intro j rf h
    simp [lockLoop] at h
  | succ f ih =>
    intro j rf h
    rw [lockLoop] at h
    cases hl : lookup (regAt j) k with
    | none => simp [orInsert, hl] at h
    | some v =>
      by_cases hv : v = t
      · simp [orInsert, hl, hv] at h
      · simp only [orInsert, hl, if_neg hv] at h
        by_cases hc : cancelled j
        · rw [if_pos hc] at h
          injection h with h
          injection h with h1 h2
          exact ⟨j, v, h2.symm, h2 ▸ hl, hv⟩
        · rw [if_neg hc] at h
          exact ih (j + 1) rf h

/-- C6. When the cancellation branch (external signal or the timer of
`lock_with_timeout` / `lock`) resolves a round, the call returns the
absent outcome `none` — the return type `Option` has no failure raise,
mirroring the source's `Option<KeyLock>` with no panic path — and the
registry it leaves behind holds no entry for the key under the caller's
own minted token (the entry that made the round fail belongs to a
different holder). -/
theorem cancel_returns_absent (m : MultiKeyLock) (regAt : Nat → Registry)
    (cancelled : Nat → Bool) (k : String) (tmo c fuel : Nat)
    (rf rt : Registry)
    (hrun : (lockWithToken m regAt cancelled k c fuel).1 = some (none, rf))
    (hrunTmo :
      (lockWithTimeout m regAt k tmo c fuel).1 = some (none, rt)) :
    lookup rf k ≠ some c ∧ lookup rt k ≠ some c := by
  constructor
  · obtain ⟨n, v, _, hlv, hv⟩ :=
      lockLoop_none regAt cancelled k c fuel 0 rf hrun
    rw [hlv]
    intro h
    injection h with h
    exact hv h
  · obtain ⟨n, v, _, hlv, hv⟩ :=
      lockLoop_none regAt (timeoutCancelled m tmo) k c fuel 0 rt hrunTmo
    rw [hlv]
    intro h
    injection h with h
    exact hv h

/-- Witness for C6: a held key, a zero timeout (timer already fired) and
an always-fired external signal both yield `none` and leave the other
holder's entry alone. -/
theorem cancel_returns_absent_witness :
    lookup [("a", 9)] "a" ≠ some 0 ∧ lookup [("a", 9)] "a" ≠ some 0 :=
  cancel_returns_absent MultiKeyLock.new (fun _ => [("a", 9)])
    (fun _ => true) "a" 0 0 1 [("a", 9)] [("a", 9)] (by decide)
    (by decide)

/-! ### Claim C3: backoff sequence -/

theorem retryAt_formula (B M : Nat) (hBM : B ≤ M) :
    ∀ n, retryAt B M n = min (B * 2 ^ n) M := by
  intro n
  induction n with
  | zero => simp [retryAt, Nat.min_eq_left hBM]
  | succ j ih =>
    rw [retryAt, ih, pow_succ]
    have h2 : B * (2 ^ j * 2) = B * 2 ^ j * 2 := by ring
    rw [h2]
    generalize B * 2 ^ j = y
    omega

theorem boundary_formula (B M : Nat) :
    ∀ j, B * 2 ^ j ≤ M → boundary B M (j + 1) = B * (2 ^ (j + 1) - 1) := by
  intro j
  induction j with
  | zero =>
    intro _
    simp [boundary, retryAt]
  | succ i ih =>
    intro h
    have hpow : (2 : Nat) ^ i ≤ 2 ^ (i + 1) :=
      Nat.pow_le_pow_right (by norm_num) (Nat.le_succ i)
    have hi : B * 2 ^ i ≤ M :=
      le_trans (Nat.mul_le_mul_left B hpow) h
    have hBM : B ≤ M := by
      have h1 : (1 : Nat) ≤ 2 ^ (i + 1) := Nat.one_le_two_pow
      calc B = B * 1 := by ring
        _ ≤ B * 2 ^ (i + 1) := Nat.mul_le_mul_left B h1
        _ ≤ M := h
    have hretry : retryAt B M (i + 1) = B * 2 ^ (i + 1) := by
      rw [retryAt_formula B M hBM (i + 1)]
      exact Nat.min_eq_left h
    have hstep : boundary B M (i + 2) =
        boundary B M (i + 1) + retryAt B M (i + 1) := rfl
    rw [hstep, ih hi, hretry]
    have h1 : (1 : Nat) ≤ 2 ^ (i + 1) := Nat.one_le_two_pow
    obtain ⟨d, hd⟩ := Nat.exists_eq_add_of_le h1
    have e2 : (2 : Nat) ^ (i + 2) = 2 ^ (i + 1) * 2 := pow_succ 2 (i + 1)
    rw [e2, hd]
    have e3 : 1 + d - 1 = d := by omega
    have e4 : (1 + d) * 2 - 1 = 2 * d + 1 := by omega
    rw [e3, e4]
    ring

theorem acquireTimeAux_spec (B M R n : Nat)
    (hleast : ∀ i < n, boundary B M i < R) (hn : R ≤ boundary B M n) :
    ∀ fuel j, j ≤ n → n - j < fuel →
      acquireTimeAux M R fuel (boundary B M j) (retryAt B M j) =
        some (boundary B M n) := by
  intro fuel
  induction fuel with
  | zero =>
    intro j hj hf
    omega
  | succ f ih =>
    intro j hj hf
    rw [acquireTimeAux]
    by_cases hR : R ≤ boundary B M j
    · rw [if_pos hR]
      have hjn : j = n := by
        rcases lt_or_eq_of_le hj with h | h
        · exact absurd hR (not_le.mpr (hleast j h))
        · exact h
      rw [hjn]
    · rw [if_neg hR]
      have hjn : j < n := by
        rcases lt_or_eq_of_le hj with h | h
        · exact h
        · exact absurd (h ▸ hn) hR
      have e1 : boundary B M j + retryAt B M j = boundary B M (j + 1) := rfl
      have e2 : min (retryAt B M j * 2) M = retryAt B M (j + 1) := rfl
      rw [e1, e2]
      exact ih (j + 1) hjn (by omega)

/-- Counterexample to C3 as stated: the loop's `retry` variable starts
at the configured base uncapped (`let mut retry = self.retry`), and the
`min(.., MAX_BACKOFF)` cap is applied only when doubling. So with a
configured base of 2 s (larger than the 1 s cap), the round-0 delay is
2 s, not `min(B * 2 ^ 0, M) = 1 s` as the claim's formula requires. -/
theorem backoff_round0_uncapped_cex :
    retryAt (2 * MAX_BACKOFF) MAX_BACKOFF 0 = 2 * MAX_BACKOFF ∧
    2 * MAX_BACKOFF ≠ min (2 * MAX_BACKOFF * 2 ^ 0) MAX_BACKOFF := by
  constructor
  · rfl
  · decide

/-- C3 as amended: when the configured base does not exceed the cap
(`B ≤ M`, true of the defaults), the round-`n` retry delay is
`min(B * 2 ^ n, M)`; the cumulative retry boundaries are
`B * (2 ^ (n+1) - 1)`, i.e. `B, 3B, 7B, 15B, ...`, until the cap takes
effect; and a waiter whose contended key becomes free at time `R`
acquires at the first boundary that is `≥ R` (index `n` is pinned as
the least such boundary by the two hypotheses about it). -/
theorem backoff_sequence_amended (B M R n fuel : Nat) (hBM : B ≤ M)
    (hleast : ∀ i < n, boundary B M i < R) (hn : R ≤ boundary B M n)
    (hfuel : n < fuel) :
    (∀ j, retryAt B M j = min (B * 2 ^ j) M) ∧
    (∀ j, B * 2 ^ j ≤ M →
      boundary B M (j + 1) = B * (2 ^ (j + 1) - 1)) ∧
    acquireTime B M R fuel = some (boundary B M n) := by
  refine ⟨retryAt_formula B M hBM, boundary_formula B M, ?_⟩
  have h0 : acquireTimeAux M R fuel (boundary B M 0) (retryAt B M 0) =
      some (boundary B M n) :=
    acquireTimeAux_spec B M R n hleast hn fuel 0 (Nat.zero_le n)
      (by omega)
  exact h0

/-- Witness for the amended C3, matching the spec's own scenario
(base 10, cap 1000, holder releases at 100): boundaries run
0, 10, 30, 70, 150 and the waiter acquires at 150. -/
theorem backoff_sequence_amended_witness :
    acquireTime 10 1000 100 5 = some (boundary 10 1000 4) ∧
    boundary 10 1000 4 = 150 :=
  ⟨(backoff_sequence_amended 10 1000 100 4 5 (by decide)
      (by decide) (by decide) (by decide)).2.2,
    by decide⟩

/-! ### Claim C5: token freshness -/

theorem counterAfter_formula (c : Nat) (hc : c < U64SIZE) :
    ∀ i, counterAfter c i = (c + i) % U64SIZE := by
  intro i
  induction i with
  | zero => simp [counterAfter, Nat.mod_eq_of_lt hc]
  | succ j ih =>
    rw [counterAfter, ih]
    have e1 : c + (j + 1) = c + j + 1 := by omega
    have h1 : (1 : Nat) % U64SIZE = 1 := by norm_num [U64SIZE]
    rw [e1, Nat.add_mod (c + j) 1, h1]

theorem lockLoop_token (regAt : Nat → Registry) (cancelled : Nat → Bool)
    (k : String) (t : Nat) :
    ∀ fuel n g rf, lockLoop regAt cancelled k t fuel n = some (some g, rf) →
      g = ⟨k, t⟩ := by
  intro fuel
  induction fuel with
  | zero =>
    intro n g rf h
    simp [lockLoop] at h
  | succ f ih =>
    intro n g rf h
    rw [lockLoop] at h
    by_cases hs : (orInsert (regAt n) k t).2 = t
    · rw [if_pos hs] at h
      injection h with h
      injection h with h1 h2
      injection h1 with h1
      exact h1.symm
    · rw [if_neg hs] at h
      by_cases hc : cancelled n
      · rw [if_pos hc] at h
        injection h with h
        injection h with h1 h2
        exact absurd h1 (by simp)
      · rw [if_neg hc] at h
        exact ih (n + 1) g rf h

/-- Counterexample to C5 as stated: the `u64` counter wraps, so call
number `2 ^ 64` re-mints the very token call number 0 received —
"pairwise distinct" fails once the counter has gone all the way
around. -/
theorem token_wrap_cex :
    tokenOfCall 0 0 = tokenOfCall 0 U64SIZE ∧ 0 ≠ U64SIZE := by
  constructor
  · rw [tokenOfCall, tokenOfCall,
      counterAfter_formula 0 (by norm_num [U64SIZE]),
      counterAfter_formula 0 (by norm_num [U64SIZE])]
    norm_num
  · norm_num [U64SIZE]

/-- C5 as amended: every acquisition call mints exactly one token
(`fetch_add` once, before any insert attempt): a successful
`lock_with_token` returns a guard carrying exactly the token minted at
call start, however many retry rounds ran, and bumps the counter
exactly once; `try_lock_now` also bumps it exactly once; and the tokens
of two distinct calls are distinct provided the counter has not wrapped
all the way around between them (fewer than `2 ^ 64` intervening
calls). -/
theorem token_freshness_amended (m : MultiKeyLock)
    (regAt : Nat → Registry) (cancelled : Nat → Bool) (k : String)
    (r : Registry) (c fuel i j : Nat) (g : KeyLock) (rf : Registry)
    (hc : c < U64SIZE) (hij : i < j) (hwin : j - i < U64SIZE)
    (hrun :
      (lockWithToken m regAt cancelled k c fuel).1 = some (some g, rf)) :
    g.token_id = c ∧
    (lockWithToken m regAt cancelled k c fuel).2 = (c + 1) % U64SIZE ∧
    (tryLockNow r c k).2.2 = (c + 1) % U64SIZE ∧
    tokenOfCall c i ≠ tokenOfCall c j := by
  refine ⟨?_, rfl, tryLockNow_counter r c k, ?_⟩
  · have := lockLoop_token regAt cancelled k (mintToken c).1 fuel 0 g rf hrun
    rw [this]
    rfl
  · rw [tokenOfCall, tokenOfCall, counterAfter_formula c hc,
      counterAfter_formula c hc]
    intro he
    rw [U64SIZE] at he hwin
    omega

/-- Witness for the amended C5: a one-round successful call from
counter 0, and calls 0 and 1 receiving distinct tokens. -/
theorem token_freshness_amended_witness :
    (⟨"a", 0⟩ : KeyLock).token_id = 0 ∧
    (lockWithToken MultiKeyLock.new (fun _ => []) (fun _ => false) "a" 0
        1).2 = (0 + 1) % U64SIZE ∧
    (tryLockNow [] 0 "a").2.2 = (0 + 1) % U64SIZE ∧
    tokenOfCall 0 0 ≠ tokenOfCall 0 1 :=
  token_freshness_amended MultiKeyLock.new (fun _ => [])
    (fun _ => false) "a" [] 0 1 0 1 ⟨"a", 0⟩ [("a", 0)]
    (by norm_num [U64SIZE]) (by norm_num) (by norm_num [U64SIZE])
    (by decide)

/-! ### Claim C7: defaults and configurability -/

/-- Counterexample to C7 as stated: `Config` has exactly the fields
`map`, `timeout`, `retry` — there is no backoff-cap parameter — and the
loop's cap is the constant `MAX_BACKOFF`. Constructing a manager with
every available field overridden (here both durations set to 2 s), the
doubled delay is still clamped to exactly 1 s, so the cap is not
overridable at manager construction and "all three are overridable"
fails. -/
theorem backoff_cap_not_overridable_cex :
    retryAt
      (withConfig ⟨[], some (2 * MAX_BACKOFF), some (2 * MAX_BACKOFF)⟩).retry
      MAX_BACKOFF 1 = MAX_BACKOFF ∧
    MAX_BACKOFF ≠ 2 * MAX_BACKOFF := by
  constructor
  · decide
  · decide

/-- C7 as amended: the default timeout is 5 s, the default retry base is
10 ms and the backoff cap is 1 s; the timeout and the retry base are
overridable at manager construction (the timeout additionally per call:
`lock_with_timeout`'s `timeout` argument drives the cancellation
timer); the cap is the fixed constant `MAX_BACKOFF`, not a construction
parameter — two managers built from configs that agree only on the
retry base have identical retry-delay sequences, always capped by
`MAX_BACKOFF`. -/
theorem config_defaults_amended (mp mp1 mp2 : Registry) (t r : Nat)
    (oto1 oto2 : Option Nat) (tmo n c fuel : Nat)
    (regAt : Nat → Registry) (k : String) :
    DEFAULT_TIMEOUT = 5000000000 ∧ DEFAULT_RETRY = 10000000 ∧
    MAX_BACKOFF = 1000000000 ∧
    MultiKeyLock.new.timeout = DEFAULT_TIMEOUT ∧
    MultiKeyLock.new.retry = DEFAULT_RETRY ∧
    (withConfig ⟨mp, some t, some r⟩).timeout = t ∧
    (withConfig ⟨mp, some t, some r⟩).retry = r ∧
    lockWithTimeout (withConfig ⟨mp, some t, some r⟩) regAt k tmo c fuel =
      lockWithToken (withConfig ⟨mp, some t, some r⟩) regAt
        (timeoutCancelled (withConfig ⟨mp, some t, some r⟩) tmo) k c
        fuel ∧
    retryAt (withConfig ⟨mp1, oto1, some r⟩).retry MAX_BACKOFF n =
      retryAt (withConfig ⟨mp2, oto2, some r⟩).retry MAX_BACKOFF n :=
  ⟨rfl, rfl, rfl, rfl, rfl, rfl, rfl, rfl, rfl⟩

/-! ### Claim C1: the registry invariant over reachable states -/

/-- Global system state: the shared registry, the list of live guards
(key, token), and the global `u64` counter. -/
structure Sys where
  reg : Registry
  guards : List (String × Nat)
  counter : Nat

/-- One step of the public interface as it affects the shared state.
`acquire` is the successful round of `try_lock_now` or
`lock_with_token`: its only premise, `(orInsert ..).2 = t`, is the
source's sole success test `*loaded == token_id` — the token `t` is
otherwise unconstrained, which covers every value the wrapping counter
can mint, including one colliding with a stored token (reachable in
the program once the counter has wrapped, claim C5). `attemptFail` is
a failed round or a cancelled/timed-out return — `or_insert` on a
present key leaves the map unchanged, and `None` returns touch
nothing. `mintStep` is the counter bump any acquisition call performs
up front. `dropStep` is `Drop for KeyLock` running on a live guard,
which thereby ceases to be live. -/
inductive Step : Sys → Sys → Prop where
  | mintStep (s : Sys) :
      Step s ⟨s.reg, s.guards, (s.counter + 1) % U64SIZE⟩
  | acquire (s : Sys) (k : String) (t : Nat)
      (hsucc : (orInsert s.reg k t).2 = t) :
      Step s ⟨(orInsert s.reg k t).1, (k, t) :: s.guards, s.counter⟩
  | attemptFail (s : Sys) : Step s s
  | dropStep (s : Sys) (g : String × Nat) (h : g ∈ s.guards) :
      Step s ⟨removeIfMatch s.reg g.1 g.2, s.guards.erase g, s.counter⟩

/-- States reachable from a fresh manager (empty shared map, no live
guards, counter 0) under any sequence of public operations. -/
inductive Reachable : Sys → Prop where
  | init : Reachable ⟨[], [], 0⟩
  | step {s s' : Sys} : Reachable s → Step s s' → Reachable s'

/-- The registry invariant: at most one stored token per key (no
duplicate keys in the map), at most one live guard per key, and an
entry `(k, t)` exists iff a live guard holds `k` with token `t`. -/
def Inv (s : Sys) : Prop :=
  (s.reg.map Prod.fst).Nodup ∧ (s.guards.map Prod.fst).Nodup ∧
  ∀ p : String × Nat, p ∈ s.reg ↔ p ∈ s.guards

/-- Counterexample to C1 as stated: a second acquisition of a held key
whose minted token collides with the stored one (the wrap scenario of
`token_wrap_cex`) passes the `*loaded == token_id` test without
inserting, so the program reaches a state with two live guards for one
key — the invariant's at-most-one-guard-per-key part fails there (and
dropping either guard would then remove the other holder's entry). -/
theorem registry_collision_cex :
    Reachable ⟨[("a", 0)], [("a", 0), ("a", 0)], 0⟩ ∧
    ¬ Inv ⟨[("a", 0)], [("a", 0), ("a", 0)], 0⟩ := by
  constructor
  · exact Reachable.step
      (Reachable.step Reachable.init (Step.acquire ⟨[], [], 0⟩ "a" 0 rfl))
      (Step.acquire ⟨[("a", 0)], [("a", 0)], 0⟩ "a" 0 (by decide))
  · intro h
    exact absurd h.2.1 (by decide)

/-- A step whose acquisition (if any) mints a token that is fresh: not
currently stored anywhere in the registry. This is the restriction the
amended C1 adds — it holds of every program step while the counter has
not lapped a live holder's token (claim C5) — and is otherwise
identical to `Step`. -/
inductive FreshStep : Sys → Sys → Prop where
  | mintStep (s : Sys) :
      FreshStep s ⟨s.reg, s.guards, (s.counter + 1) % U64SIZE⟩
  | acquire (s : Sys) (k : String) (t : Nat)
      (hsucc : (orInsert s.reg k t).2 = t)
      (hfresh : ∀ k', (k', t) ∉ s.reg) :
      FreshStep s ⟨(orInsert s.reg k t).1, (k, t) :: s.guards, s.counter⟩
  | attemptFail (s : Sys) : FreshStep s s
  | dropStep (s : Sys) (g : String × Nat) (h : g ∈ s.guards) :
      FreshStep s ⟨removeIfMatch s.reg g.1 g.2, s.guards.erase g, s.counter⟩

/-- States reachable when every acquisition along the way minted a
fresh token. -/
inductive ReachableFresh : Sys → Prop where
  | init : ReachableFresh ⟨[], [], 0⟩
  | step {s s' : Sys} : ReachableFresh s → FreshStep s s' →
      ReachableFresh s'

/-- Every fresh step is a program step: the freshness restriction only
shrinks the transition relation, it adds no behaviour. -/
theorem freshStep_step (s s' : Sys) (h : FreshStep s s') : Step s s' := by
  cases h with
  | mintStep => exact Step.mintStep s
  | acquire k t hsucc hfresh => exact Step.acquire s k t hsucc
  | attemptFail => exact Step.attemptFail s
  | dropStep g hg => exact Step.dropStep s g hg

theorem not_mem_keys (l : List (String × Nat)) (k : String)
    (h : ∀ p ∈ l, p.1 ≠ k) : k ∉ l.map Prod.fst := by
  intro hk
  obtain ⟨p, hp, hpk⟩ := List.mem_map.mp hk
  exact h p hp hpk

theorem inv_step (s s' : Sys) (hinv : Inv s) (hs : FreshStep s s') :
    Inv s' := by
  obtain ⟨h1, h2, h3⟩ := hinv
  cases hs with
  | mintStep => exact ⟨h1, h2, h3⟩
  | attemptFail => exact ⟨h1, h2, h3⟩
  | acquire k t hsucc hfresh =>
    have hlook : lookup s.reg k = none := by
      cases hl : lookup s.reg k with
      | none => rfl
      | some v =>
        rw [orInsert, hl] at hsucc
        exact absurd (mem_of_lookup s.reg k t (hsucc ▸ hl)) (hfresh k)
    have hins : (orInsert s.reg k t).1 = (k, t) :: s.reg := by
      rw [orInsert, hlook]
    have hkeys : ∀ p ∈ s.reg, p.1 ≠ k := (lookup_eq_none s.reg k).mp hlook
    refine ⟨?_, ?_, ?_⟩
    · rw [hins]
      simp only [List.map_cons, List.nodup_cons]
      exact ⟨not_mem_keys s.reg k hkeys, h1⟩
    · simp only [List.map_cons, List.nodup_cons]
      refine ⟨?_, h2⟩
      apply not_mem_keys
      intro p hp
      exact hkeys p ((h3 p).mpr hp)
    · intro p
      rw [hins]
      simp only [List.mem_cons]
      rw [h3 p]
  | dropStep g hg =>
    have hnd : s.guards.Nodup := List.Nodup.of_map Prod.fst h2
    refine ⟨?_, ?_, ?_⟩
    · exact List.Nodup.sublist
        (List.Sublist.map Prod.fst (List.filter_sublist s.reg)) h1
    · exact List.Nodup.sublist
        (List.Sublist.map Prod.fst (List.erase_sublist g s.guards)) h2
    · intro p
      rw [mem_removeIfMatch, List.Nodup.mem_erase_iff hnd, h3 p]
      constructor
      · rintro ⟨hp, hne⟩
        refine ⟨?_, hp⟩
        intro he
        exact hne ⟨congrArg Prod.fst he, congrArg Prod.snd he⟩
      · rintro ⟨hne, hp⟩
        refine ⟨hp, ?_⟩
        rintro ⟨hfst, hsnd⟩
        exact hne (Prod.ext hfst hsnd)

/-- C1 as amended: in every state reachable under sequences of the
public operations in which each successful acquisition minted a fresh
token (absent from the registry at that instant — guaranteed while
fewer than `2 ^ 64` mints separate any live holder's token from the
current counter, claim C5), each key has at most one stored holder
token, and an entry exists for a key iff a live guard currently holds
that key (with exactly the stored token). Every such state is also
reachable by the unrestricted program relation. Without the freshness
proviso the invariant fails: `registry_collision_cex`. -/
theorem registry_invariant_amended (s : Sys) (h : ReachableFresh s) :
    Reachable s ∧ Inv s := by
  induction h with
  | init => exact ⟨Reachable.init, by simp, by simp, by simp⟩
  | step hr hs ih =>
    exact ⟨Reachable.step ih.1 (freshStep_step _ _ hs),
      inv_step _ _ ih.2 hs⟩

/-- Witness for the amended C1: the state after one fresh successful
acquisition is reachable and satisfies the invariant. -/
theorem registry_invariant_amended_witness :
    Reachable ⟨[("a", 0)], [("a", 0)], 0⟩ ∧
    Inv ⟨[("a", 0)], [("a", 0)], 0⟩ :=
  registry_invariant_amended _
    (ReachableFresh.step ReachableFresh.init
      (FreshStep.acquire ⟨[], [], 0⟩ "a" 0 rfl (by simp)))

end Multikeylock
